import Mathlib

/-!
Verification of the zenml `new_core` stack composition and deployment
lifecycle: a shallow embedding of
`src/zenml/new_core/runtime_configuration.py`,
`src/zenml/new_core/stack.py` and
`src/zenml/artifact_stores/local_artifact_store.py`, with theorems about
construction-time validation, requirement aggregation, runtime-option
merging, run-name resolution and the deploy lifecycle.
-/

namespace ZenML

/-- Python values stored in a `RuntimeConfiguration` or in a component's
`runtime_options` dict (`Any` in the source): the cases the repository
actually stores are `None`, strings, ints and bools. -/
inductive Value where
  | vNone : Value
  | vStr : String → Value
  | vInt : Int → Value
  | vBool : Bool → Value
  deriving DecidableEq, Repr

/-- Python truthiness of a `Value` (`None` and `""` are falsy, as are `0`
and `False`), used by the `or` in `deploy_pipeline`'s run-name resolution. -/
def Value.truthy : Value → Bool
  | .vNone => false
  | .vStr s => s != ""
  | .vInt n => n != 0
  | .vBool b => b

/-- Conversion `Optional[str] → Any`: the value `__init__` stores under the reserved
run-name key. -/
def Value.ofOptStr : Option String → Value
  | none => .vNone
  | some s => .vStr s

/-- Python dict assignment `d[k] = v`: replace the value in place if `k` is
already a key (keeping its position), otherwise append the pair. -/
def dictSet {α β : Type} [DecidableEq α] : List (α × β) → α → β → List (α × β)
  | [], k, v => [(k, v)]
  | (k', v') :: rest, k, v =>
    if k' = k then (k', v) :: rest else (k', v') :: dictSet rest k v

/-- Python dict lookup `d[k]` / `d.get(k)`: first (and, for a genuine dict,
only) binding of `k`; `none` models a `KeyError`. -/
def dictGet {α β : Type} [DecidableEq α] : List (α × β) → α → Option β
  | [], _ => none
  | (k', v') :: rest, k => if k' = k then some v' else dictGet rest k

/-- The keys of a dict, in insertion order. -/
def dictKeys {α β : Type} (d : List (α × β)) : List α := d.map Prod.fst

/-- Python `d.update(other)`: apply each binding of `other` to `d` in order. -/
def dictUpdate {α β : Type} [DecidableEq α]
    (d other : List (α × β)) : List (α × β) :=
  other.foldl (fun acc kv => dictSet acc kv.1 kv.2) d

/-- The reserved key (`RUN_NAME_OPTION_KEY = "run_name"` in
`runtime_configuration.py`). -/
def RUN_NAME_OPTION_KEY : String := "run_name"

/-- The `RuntimeConfiguration` class is a `dict` subclass; its state is the dict's
bindings, an insertion-ordered association list with unique keys. -/
structure RuntimeConfiguration where
  entries : List (String × Value)
  deriving DecidableEq, Repr

namespace RuntimeConfiguration

/-- Constructor `__init__(self, run_name=None, **runtime_options)`: sets
`runtime_options[RUN_NAME_OPTION_KEY] = run_name` and then initializes the
dict with those bindings.  `run_name` here is the `Optional[str]` keyword
parameter; `opts` are the remaining keyword options (a Python `**kwargs`
dict can never itself contain the key `"run_name"`, which is captured by
the named parameter, but `dictSet` handles that case identically). -/
def init (run_name : Option String) (opts : List (String × Value)) :
    RuntimeConfiguration :=
  ⟨dictSet opts RUN_NAME_OPTION_KEY (Value.ofOptStr run_name)⟩

/-- Read access `rc[k]`: `none` models a `KeyError`. -/
def get (rc : RuntimeConfiguration) (k : String) : Option Value :=
  dictGet rc.entries k

/-- Write access `rc[k] = v`. -/
def set (rc : RuntimeConfiguration) (k : String) (v : Value) :
    RuntimeConfiguration :=
  ⟨dictSet rc.entries k v⟩

/-- The `run_name` property: `self[RUN_NAME_OPTION_KEY]`.  The outer
`Option` models the possibility of a `KeyError`; the property's annotated
return type `Optional[str]` corresponds to the stored value being `vNone`
or `vStr`. -/
def run_name (rc : RuntimeConfiguration) : Option Value :=
  rc.get RUN_NAME_OPTION_KEY

end RuntimeConfiguration

/-- The enum `zenml.enums.StackComponentType` (the module itself is not under
`src/`; these are the four categories `stack.py` uses). -/
inductive StackComponentType where
  | orchestrator
  | metadata_store
  | artifact_store
  | container_registry
  deriving DecidableEq, Repr

/-- The identity and declarative data of a stack component, the part a
`StackValidator` can inspect.  Modelled from the spec: `StackComponent`
(`zenml/new_core/stack_component.py`) is not under `src/`; per §3/§4.1 a
component has a name, a unique id, a category, a requirement list and a
runtime-option schema fragment. -/
structure ComponentData where
  name : String
  type : StackComponentType
  requirements : List String
  runtime_options : List (String × Value)

/-- The view of an assembled stack that is passed to a component's
validator (`validator.validate(stack=self)`): the stack's name and the
data of its components. -/
structure StackData where
  name : String
  orchestrator : ComponentData
  metadata_store : ComponentData
  artifact_store : ComponentData
  container_registry : Option ComponentData

/-- A pipeline is opaque to the stack except for its `name` (spec §6). -/
structure Pipeline where
  name : String

/-- A stack component.  Modelled from the spec: the abstract
`StackComponent` base class is not under `src/`; per §4.1 it carries an
optional `StackValidator` (a predicate over the assembled stack) and the
lifecycle hooks, whose outcomes we model as `Except`-valued functions of
the arguments the source passes them (`run_pipeline` is consumed only on
the orchestrator slot, spec §6). -/
structure StackComponent extends ComponentData where
  validator : Option (StackData → Bool)
  prepare_pipeline_deployment :
    Pipeline → StackData → RuntimeConfiguration → Except String Unit
  prepare_pipeline_run : Except String Unit
  cleanup_pipeline_run : Except String Unit
  run_pipeline : Pipeline → StackData → Value → Except String Value

/-- The state set by `Stack.__init__` before it calls `self.validate()`:
one orchestrator, one metadata store, one artifact store and an optional
container registry (stack.py lines 47-67). -/
structure Stack where
  name : String
  orchestrator : StackComponent
  metadata_store : StackComponent
  artifact_store : StackComponent
  container_registry : Option StackComponent

namespace Stack

/-- The data view of the stack handed to validators. -/
def toData (s : Stack) : StackData :=
  ⟨s.name, s.orchestrator.toComponentData, s.metadata_store.toComponentData,
    s.artifact_store.toComponentData,
    s.container_registry.map StackComponent.toComponentData⟩

/-- The component list the `components` property iterates:
`[orchestrator, metadata_store, artifact_store, container_registry]` with
the `None` entries dropped (stack.py lines 107-113). -/
def componentList (s : Stack) : List StackComponent :=
  [some s.orchestrator, some s.metadata_store, some s.artifact_store,
    s.container_registry].filterMap id

/-- The `components` property: the dict comprehension
`{component.type: component for component in [orchestrator, metadata_store,
artifact_store, container_registry] if component is not None}`
(stack.py lines 102-114), as an insertion-ordered dict. -/
def components (s : Stack) : List (StackComponentType × StackComponent) :=
  (s.componentList.map (fun c => (c.type, c))).foldl
    (fun acc kv => dictSet acc kv.1 kv.2) []

/-- In the source each slot's Python type (`BaseOrchestrator`, …) fixes the
component's `.type`; those base classes are outside `src/`, so we record
the fact as a predicate. -/
def WellTyped (s : Stack) : Prop :=
  s.orchestrator.type = .orchestrator ∧
  s.metadata_store.type = .metadata_store ∧
  s.artifact_store.type = .artifact_store ∧
  ∀ r ∈ s.container_registry, r.type = .container_registry

/-- The method `requirements(exclude_components)` (stack.py lines 166-183): extend the
list with each non-excluded component's requirements, in dict order. -/
def requirements (s : Stack) (exclude_components : List StackComponentType) :
    List String :=
  s.components.foldl
    (fun acc tc =>
      if tc.1 ∈ exclude_components then acc else acc ++ tc.2.requirements)
    []

end Stack

/-- The loop body of the `runtime_options` property (stack.py lines
143-164): for each component, compute the duplicate keys
(`runtime_options.keys() & component.runtime_options.keys()`), emit a
warning naming them if any, then `runtime_options.update(...)`.  The
second result collects the emitted warnings (one entry per warning, the
colliding keys). -/
def mergeRuntimeOptions (opts : List (String × Value))
    (warnings : List (List String)) :
    List StackComponent → List (String × Value) × List (List String)
  | [] => (opts, warnings)
  | c :: cs =>
    let dups := (dictKeys opts).filter (fun k => k ∈ dictKeys c.runtime_options)
    mergeRuntimeOptions (dictUpdate opts c.runtime_options)
      (if dups.isEmpty then warnings else warnings ++ [dups]) cs

namespace Stack

/-- The `runtime_options` property together with the warnings it logs. -/
def runtime_options_with_warnings (s : Stack) :
    List (String × Value) × List (List String) :=
  mergeRuntimeOptions [] [] (s.components.map Prod.snd)

/-- The value the `runtime_options` property returns. -/
def runtime_options (s : Stack) : List (String × Value) :=
  s.runtime_options_with_warnings.1

end Stack

/-- The loop body of `Stack.validate` (stack.py lines 185-203): for each
component with a validator, `component.validator.validate(stack=self)`;
a rejection raises a `StackValidationError`.  Modelled from the spec:
`StackValidator` is not under `src/`; per §3 it is a predicate
`validate(stack) -> success | failure-with-reason`. -/
def validateComponents (stack : StackData) :
    List StackComponent → Except String Unit
  | [] => .ok ()
  | c :: cs =>
    match c.validator with
    | some v =>
      if v stack then validateComponents stack cs
      else .error ("StackValidationError: component " ++ c.name ++
        " rejected the stack")
    | none => validateComponents stack cs

namespace Stack

/-- The method `validate()` (stack.py lines 185-203). -/
def validate (s : Stack) : Except String Unit :=
  validateComponents s.toData (s.components.map Prod.snd)

end Stack

/-- The constructor `Stack.__init__` (stack.py lines 47-67): set the fields, then call
`self.validate()`; a `StackValidationError` propagates out of the
constructor, so the caller receives either a validated `Stack` or the
error. -/
def mkStack (name : String)
    (orchestrator metadata_store artifact_store : StackComponent)
    (container_registry : Option StackComponent) : Except String Stack :=
  let s : Stack :=
    ⟨name, orchestrator, metadata_store, artifact_store, container_registry⟩
  match s.validate with
  | .ok () => .ok s
  | .error e => .error e

/-- The fields of `datetime.now()` that the run-name format string reads
(`%y` is the two-digit year). -/
structure Timestamp where
  day : Nat
  month : Nat
  year : Nat
  hour : Nat
  minute : Nat
  second : Nat
  microsecond : Nat
  deriving DecidableEq, Repr

/-- Bounds `datetime.now()` guarantees for those fields. -/
def Timestamp.Valid (t : Timestamp) : Prop :=
  1 ≤ t.day ∧ t.day ≤ 31 ∧ 1 ≤ t.month ∧ t.month ≤ 12 ∧ t.year < 100 ∧
  t.hour < 24 ∧ t.minute < 60 ∧ t.second < 60 ∧ t.microsecond < 1000000

instance (t : Timestamp) : Decidable t.Valid := by
  unfold Timestamp.Valid; infer_instance

/-- The little-endian decimal digits of `n`, padded with zeros to width
`w`. -/
def paddedDigits (w n : Nat) : List Nat :=
  Nat.digits 10 n ++ List.replicate (w - (Nat.digits 10 n).length) 0

/-- Zero-padded fixed-width decimal rendering of a numeric `strftime`
field: digits of `n` padded with zeros to width `w`, most significant
first (`fieldChars 2 7 = ['0', '7']`). -/
def fieldChars (w n : Nat) : List Char :=
  ((paddedDigits w n).reverse).map Nat.digitChar

/-- Field `%h`: the abbreviated month name, months numbered 1-12 as in
`datetime`. -/
def monthAbbrev (m : Nat) : String :=
  ["Jan", "Feb", "Mar", "Apr", "May", "Jun", "Jul", "Aug", "Sep", "Oct",
    "Nov", "Dec"].getD (m - 1) "???"

/-- The format `datetime.now().strftime("%d_%h_%y-%H_%M_%S_%f")` (stack.py line 232):
`%d`, `%H`, `%M`, `%S` are zero-padded to width 2, `%y` to width 2 and
`%f` (microseconds) to width 6. -/
def Timestamp.strftime (t : Timestamp) : String :=
  String.mk (fieldChars 2 t.day ++ ['_'] ++ (monthAbbrev t.month).data ++
    ['_'] ++ fieldChars 2 t.year ++ ['-'] ++ fieldChars 2 t.hour ++ ['_'] ++
    fieldChars 2 t.minute ++ ['_'] ++ fieldChars 2 t.second ++ ['_'] ++
    fieldChars 6 t.microsecond)

/-- Run-name resolution (stack.py lines 230-233):
`runtime_configuration.run_name or f"{pipeline.name}-{...strftime(...)}"`.
Python `or` takes the synthesized name whenever the stored reserved value
is falsy (`None` or `""`); a missing reserved key would be a `KeyError`
from the `run_name` property, modelled as the error case. -/
def resolveRunName (rc : RuntimeConfiguration) (pipeline_name : String)
    (now : Timestamp) : Except String Value :=
  match rc.run_name with
  | none => .error "KeyError: run_name"
  | some v =>
    .ok (if v.truthy then v
      else .vStr (pipeline_name ++ "-" ++ now.strftime))

/-- One observable step of `deploy_pipeline`: which component method was
invoked (the `runPipeline` event records the `run_name` argument handed to
the orchestrator). -/
inductive Event where
  | prepareDeployment (component : String)
  | prepareRun (component : String)
  | runPipeline (run_name : Value)
  | cleanup (component : String)
  deriving DecidableEq, Repr

/-- A `for component in ...: component.hook()` loop: the event records that
the component's method was invoked; an exception stops the loop there and
propagates. -/
def runHooks (hook : StackComponent → Except String Unit)
    (ev : StackComponent → Event) :
    List StackComponent → List Event × Except String Unit
  | [] => ([], .ok ())
  | c :: cs =>
    match hook c with
    | .error e => ([ev c], .error e)
    | .ok () =>
      let rest := runHooks hook ev cs
      (ev c :: rest.1, rest.2)

namespace Stack

/-- The method `deploy_pipeline` (stack.py lines 205-257), with the sequence of
component-method invocations made observable as a trace.  The source has
no `try`/`finally`: each phase runs only if the previous one returned
normally, and an exception anywhere propagates immediately, skipping
everything after it — in particular the `cleanup_pipeline_run` loop sits
after the `orchestrator.run_pipeline` call on the normal path. -/
def deploy_pipeline (s : Stack) (pipeline : Pipeline)
    (runtime_configuration : RuntimeConfiguration) (now : Timestamp) :
    List Event × Except String Value :=
  let comps := s.components.map Prod.snd
  let p1 := runHooks
    (fun c =>
      c.prepare_pipeline_deployment pipeline s.toData runtime_configuration)
    (fun c => .prepareDeployment c.name) comps
  match p1.2 with
  | .error e => (p1.1, .error e)
  | .ok () =>
    let p2 := runHooks (fun c => c.prepare_pipeline_run)
      (fun c => .prepareRun c.name) comps
    match p2.2 with
    | .error e => (p1.1 ++ p2.1, .error e)
    | .ok () =>
      match resolveRunName runtime_configuration pipeline.name now with
      | .error e => (p1.1 ++ p2.1, .error e)
      | .ok run_name =>
        match s.orchestrator.run_pipeline pipeline s.toData run_name with
        | .error e => (p1.1 ++ p2.1 ++ [.runPipeline run_name], .error e)
        | .ok v =>
          let p3 := runHooks (fun c => c.cleanup_pipeline_run)
            (fun c => .cleanup c.name) comps
          (p1.1 ++ p2.1 ++ [.runPipeline run_name] ++ p3.1,
            match p3.2 with
            | .error e => .error e
            | .ok () => .ok v)

end Stack

/-- The fields of a `LocalArtifactStore` that survive construction
(`BaseArtifactStore` is a pydantic model with a `name` and a `path`). -/
structure LocalArtifactStore where
  name : String
  path : String
  deriving DecidableEq, Repr

/-- Python `str.startswith`: the argument is a prefix of the receiver's
character sequence. -/
def pyStartsWith (s p : String) : Bool := p.data.isPrefixOf s.data

/-- The `@validator("path")` hook `ensure_path_is_local`
(local_artifact_store.py lines 32-40): raise a `ValueError` when
`any([path.startswith(p) for p in REMOTE_FS_PREFIX])`, otherwise return
the path unchanged. -/
def ensure_path_is_local (remote_fs_prefixes : List String) (path : String) :
    Except String String :=
  if remote_fs_prefixes.any (fun p => pyStartsWith path p) then
    .error ("Path '" ++ path ++
      "' specified for LocalArtifactStore is not a local path.")
  else .ok path

/-- Construction of a `LocalArtifactStore`.  Modelled from the spec:
pydantic runs the field validator as part of `__init__` (spec §4.1:
"enforced as part of object construction and reported as a validation
error, not deferred to later use"), and `zenml.constants.REMOTE_FS_PREFIX`
is not under `src/`, so the prefix list stays an abstract parameter. -/
def mkLocalArtifactStore (remote_fs_prefixes : List String)
    (name path : String) : Except String LocalArtifactStore :=
  match ensure_path_is_local remote_fs_prefixes path with
  | .error e => .error e
  | .ok validated_path => .ok ⟨name, validated_path⟩

/-! ### Concrete components for the witnesses -/

/-- A concrete orchestrator whose hooks all succeed. -/
def sampleOrch : StackComponent :=
  ⟨⟨"orchestrator", .orchestrator, ["o-req"],
      [("shared_opt", .vInt 1), ("orch_opt", .vBool true)]⟩,
    none, fun _ _ _ => .ok (), .ok (), .ok (), fun _ _ _ => .ok .vNone⟩

/-- A concrete metadata store; its requirement list repeats `"o-req"` to
exercise duplicate preservation. -/
def sampleMeta : StackComponent :=
  ⟨⟨"metadata_store", .metadata_store, ["m-req", "o-req"], []⟩,
    none, fun _ _ _ => .ok (), .ok (), .ok (), fun _ _ _ => .ok .vNone⟩

/-- A concrete artifact store; it redeclares `"shared_opt"` to exercise
the runtime-option collision path. -/
def sampleArt : StackComponent :=
  ⟨⟨"artifact_store", .artifact_store, ["a-req"], [("shared_opt", .vInt 2)]⟩,
    none, fun _ _ _ => .ok (), .ok (), .ok (), fun _ _ _ => .ok .vNone⟩

/-- A concrete container registry. -/
def sampleReg : StackComponent :=
  ⟨⟨"container_registry", .container_registry, ["r-req"], []⟩,
    none, fun _ _ _ => .ok (), .ok (), .ok (), fun _ _ _ => .ok .vNone⟩

/-- A full validator-free stack over the sample components. -/
def sampleStack : Stack :=
  ⟨"sample", sampleOrch, sampleMeta, sampleArt, some sampleReg⟩

/-- An orchestrator carrying a validator that rejects every stack. -/
def rejectingOrch : StackComponent :=
  ⟨⟨"orchestrator", .orchestrator, [], []⟩, some (fun _ => false),
    fun _ _ _ => .ok (), .ok (), .ok (), fun _ _ _ => .ok .vNone⟩

/-- A metadata store whose `prepare_pipeline_deployment` raises. -/
def failingPrepMeta : StackComponent :=
  ⟨⟨"metadata_store", .metadata_store, [], []⟩, none,
    fun _ _ _ => .error "prep-failed", .ok (), .ok (),
    fun _ _ _ => .ok .vNone⟩

/-- The stack whose second component fails preparation. -/
def prepFailStack : Stack :=
  ⟨"prep-fail", sampleOrch, failingPrepMeta, sampleArt, none⟩

/-- An empty runtime configuration (fresh `RuntimeConfiguration()`). -/
def emptyRC : RuntimeConfiguration := RuntimeConfiguration.init none []

/-- A fixed instant handed to the embedded `datetime.now()`. -/
def someNow : Timestamp := ⟨7, 3, 22, 14, 5, 9, 123456⟩

/-- An orchestrator whose delegated `run_pipeline` raises. -/
def failingRunOrch : StackComponent :=
  ⟨⟨"orchestrator", .orchestrator, [], []⟩, none,
    fun _ _ _ => .ok (), .ok (), .ok (), fun _ _ _ => .error "boom"⟩

/-- The stack of the failing execution. -/
def crashStack : Stack :=
  ⟨"crash", failingRunOrch, sampleMeta, sampleArt, none⟩

/-- A runtime configuration carrying an explicit run name. -/
def namedRC : RuntimeConfiguration :=
  RuntimeConfiguration.init (some "run") []

/-- Recover a numeric field from its zero-padded rendering. -/
def decodeField (l : List Char) : Nat :=
  Nat.ofDigits 10 ((l.map (fun ch => ch.toNat - 48)).reverse)

/-- A second instant, one microsecond after `someNow`. -/
def otherNow : Timestamp := ⟨7, 3, 22, 14, 5, 9, 123457⟩

/-! ### Supporting lemmas for the dict model -/

theorem dictGet_dictSet_self {α β : Type} [DecidableEq α]
    (d : List (α × β)) (k : α) (v : β) : dictGet (dictSet d k v) k = some v := by
  induction d with
  | nil => simp [dictSet, dictGet]
  | cons kv rest ih =>
    by_cases h : kv.1 = k
    · simp [dictSet, dictGet, h]
    · simp [dictSet, dictGet, h, ih]

theorem dictGet_dictSet_ne {α β : Type} [DecidableEq α]
    (d : List (α × β)) (k k' : α) (v : β) (h : k' ≠ k) :
    dictGet (dictSet d k v) k' = dictGet d k' := by
  have h' : ¬k = k' := fun hc => h hc.symm
  induction d with
  | nil => simp [dictSet, dictGet, h']
  | cons kv rest ih =>
    by_cases hk : kv.1 = k
    · subst hk
      have hkk' : ¬kv.1 = k' := fun hc => h (hc ▸ rfl)
      simp [dictSet, dictGet, hkk']
    · by_cases hk' : kv.1 = k'
      · simp [dictSet, dictGet, hk, hk', h]
      · simp [dictSet, dictGet, hk, hk', ih]

theorem mem_dictKeys_of_dictGet {α β : Type} [DecidableEq α]
    {d : List (α × β)} {k : α} {v : β} (h : dictGet d k = some v) :
    k ∈ dictKeys d := by
  induction d with
  | nil => simp [dictGet] at h
  | cons kv rest ih =>
    by_cases hk : kv.1 = k
    · simp [dictKeys, hk]
    · simp only [dictGet, if_neg hk] at h
      simp [dictKeys] at ih ⊢
      exact Or.inr (ih h)

/-! ### The `components` dict of a well-typed stack -/

theorem Stack.components_of_wellTyped (s : Stack) (h : s.WellTyped) :
    s.components = s.componentList.map (fun c => (c.type, c)) := by
  obtain ⟨h1, h2, h3, h4⟩ := h
  cases hr : s.container_registry with
  | none =>
    simp [Stack.components, Stack.componentList, hr, dictSet, h1, h2, h3]
  | some r =>
    have hrt : r.type = .container_registry := h4 r (by simp [hr])
    simp [Stack.components, Stack.componentList, hr, dictSet, h1, h2, h3, hrt]

/-! ### Validation lemmas -/

theorem validateComponents_ok_of_no_validators (d : StackData)
    (cs : List StackComponent) (h : ∀ c ∈ cs, c.validator = none) :
    validateComponents d cs = .ok () := by
  induction cs with
  | nil => rfl
  | cons c cs ih =>
    have hc := h c (by simp)
    simp only [validateComponents, hc]
    exact ih (fun c' hc' => h c' (by simp [hc']))

theorem validateComponents_reject_ne_ok (d : StackData)
    (cs : List StackComponent) (c : StackComponent) (v : StackData → Bool)
    (hmem : c ∈ cs) (hv : c.validator = some v) (hfail : v d = false) :
    validateComponents d cs ≠ .ok () := by
  induction cs with
  | nil => simp at hmem
  | cons c' cs ih =>
    rcases List.mem_cons.mp hmem with hEq | hmem'
    · subst hEq
      simp [validateComponents, hv, hfail]
    · cases hval : c'.validator with
      | none => simpa [validateComponents, hval] using ih hmem'
      | some v' =>
        by_cases hb : v' d = true
        · simpa [validateComponents, hval, hb] using ih hmem'
        · simp [validateComponents, hval, hb]

theorem except_error_of_ne_ok {x : Except String Unit} (h : x ≠ .ok ()) :
    ∃ e, x = .error e := by
  cases x with
  | error e => exact ⟨e, rfl⟩
  | ok u => cases u; exact absurd rfl h

/-! ### Claims about `RuntimeConfiguration` -/

/-- C8: `RuntimeConfiguration` behaves as a mapping with a typed reserved
accessor: `init (some x) opts` has `run_name = x`; `init none opts` has
`run_name = None`; any non-reserved key passed at construction is
retrievable with its value; and a key set after construction is
immediately retrievable. -/
theorem runtimeConfiguration_mapping_spec (x k k₂ : String) (v₂ : Value)
    (opts : List (String × Value)) (rc : RuntimeConfiguration)
    (hk : k ≠ RUN_NAME_OPTION_KEY) :
    (RuntimeConfiguration.init (some x) opts).run_name = some (.vStr x) ∧
    (RuntimeConfiguration.init none opts).run_name = some .vNone ∧
    (RuntimeConfiguration.init (some x) opts).get k = dictGet opts k ∧
    (rc.set k₂ v₂).get k₂ = some v₂ := by
  refine ⟨?_, ?_, ?_, ?_⟩
  · exact dictGet_dictSet_self ..
  · exact dictGet_dictSet_self ..
  · exact dictGet_dictSet_ne opts RUN_NAME_OPTION_KEY k (Value.ofOptStr (some x)) hk
  · exact dictGet_dictSet_self ..

/-- Witness for C8 at the inputs of the spec's example
(`run_name="x", foo=1`, then `rc["bar"] = 2`). -/
theorem runtimeConfiguration_mapping_spec_witness :
    ("foo" : String) ≠ RUN_NAME_OPTION_KEY ∧
    ((RuntimeConfiguration.init (some "x") [("foo", .vInt 1)]).run_name
        = some (.vStr "x") ∧
      (RuntimeConfiguration.init none [("foo", .vInt 1)]).run_name
        = some .vNone ∧
      (RuntimeConfiguration.init (some "x") [("foo", .vInt 1)]).get "foo"
        = dictGet [("foo", .vInt 1)] "foo" ∧
      ((RuntimeConfiguration.init none []).set "bar" (.vInt 2)).get "bar"
        = some (.vInt 2)) :=
  ⟨by decide,
    runtimeConfiguration_mapping_spec "x" "foo" "bar" (.vInt 2)
      [("foo", .vInt 1)] (RuntimeConfiguration.init none []) (by decide)⟩

/-- C10: the reserved `"run_name"` key is always present after
construction — `__init__` stores `Value.ofOptStr run_name` under it
unconditionally — so the `run_name` accessor never hits a `KeyError` on a
fresh instance, and the stored value is `None` exactly when no run name
was supplied. -/
theorem runName_key_always_present (r : Option String)
    (opts : List (String × Value)) :
    (RuntimeConfiguration.init r opts).run_name
        = some (Value.ofOptStr r) ∧
    RUN_NAME_OPTION_KEY ∈ dictKeys (RuntimeConfiguration.init r opts).entries := by
  have h : (RuntimeConfiguration.init r opts).run_name
      = some (Value.ofOptStr r) := dictGet_dictSet_self ..
  exact ⟨h, mem_dictKeys_of_dictGet h⟩

/-! ### Claim about `LocalArtifactStore` -/

/-- C9: constructing a local artifact store fails with a validation error
exactly when the path starts with one of the remote filesystem URI
prefixes, the failure happens during construction (no object is produced),
and any other path is accepted unchanged. -/
theorem localArtifactStore_path_validation (remote_fs_prefixes : List String)
    (name path : String) :
    ((∃ p ∈ remote_fs_prefixes, pyStartsWith path p) →
      ∃ e, mkLocalArtifactStore remote_fs_prefixes name path = .error e) ∧
    ((∀ p ∈ remote_fs_prefixes, ¬pyStartsWith path p) →
      mkLocalArtifactStore remote_fs_prefixes name path = .ok ⟨name, path⟩) := by
  constructor
  · intro h
    have hany : remote_fs_prefixes.any (fun p => pyStartsWith path p) = true := by
      rcases h with ⟨p, hp, hs⟩
      exact List.any_eq_true.mpr ⟨p, hp, hs⟩
    unfold mkLocalArtifactStore ensure_path_is_local
    rw [hany]
    exact ⟨_, rfl⟩
  · intro h
    have hany : remote_fs_prefixes.any (fun p => pyStartsWith path p) = false := by
      rw [List.any_eq_false]
      intro p hp
      simpa using h p hp
    simp [mkLocalArtifactStore, ensure_path_is_local, hany]

/-- Witness for C9: a remote-looking path is rejected, a plain local path
is accepted unchanged. -/
theorem localArtifactStore_path_validation_witness :
    (∃ e, mkLocalArtifactStore ["gs://", "s3://"] "store" "s3://bucket/x"
        = .error e) ∧
    mkLocalArtifactStore ["gs://", "s3://"] "store" "/tmp/x"
        = .ok ⟨"store", "/tmp/x"⟩ :=
  ⟨(localArtifactStore_path_validation ["gs://", "s3://"] "store"
        "s3://bucket/x").1 ⟨"s3://", by decide, by decide⟩,
    (localArtifactStore_path_validation ["gs://", "s3://"] "store"
        "/tmp/x").2 (by decide)⟩

theorem sampleStack_wellTyped : sampleStack.WellTyped := by
  refine ⟨rfl, rfl, rfl, ?_⟩
  intro r hr
  have : sampleReg = r := by simpa [sampleStack, Option.mem_def] using hr
  rw [← this]; rfl

/-! ### Key-membership lemmas for the dict model -/

theorem mem_dictKeys_dictSet_self {α β : Type} [DecidableEq α]
    (d : List (α × β)) (k : α) (v : β) : k ∈ dictKeys (dictSet d k v) := by
  induction d with
  | nil => simp [dictSet, dictKeys]
  | cons kv rest ih =>
    by_cases h : kv.1 = k
    · simp [dictSet, dictKeys, h]
    · simp only [dictSet, if_neg h, dictKeys, List.map_cons, List.mem_cons]
      exact Or.inr ih

theorem mem_dictKeys_dictSet_of_mem {α β : Type} [DecidableEq α]
    {d : List (α × β)} {k' : α} (k : α) (v : β) (h : k' ∈ dictKeys d) :
    k' ∈ dictKeys (dictSet d k v) := by
  induction d with
  | nil => simp [dictKeys] at h
  | cons kv rest ih =>
    by_cases hk : kv.1 = k
    · simpa [dictSet, dictKeys, hk] using h
    · simp only [dictKeys, List.map_cons, List.mem_cons] at h
      simp only [dictSet, if_neg hk, dictKeys, List.map_cons, List.mem_cons]
      rcases h with h | h
      · exact Or.inl h
      · exact Or.inr (ih h)

theorem mem_dictKeys_dictUpdate_left {α β : Type} [DecidableEq α]
    {d : List (α × β)} {k : α} (other : List (α × β))
    (h : k ∈ dictKeys d) : k ∈ dictKeys (dictUpdate d other) := by
  induction other generalizing d with
  | nil => simpa [dictUpdate] using h
  | cons kv rest ih =>
    show k ∈ dictKeys (dictUpdate (dictSet d kv.1 kv.2) rest)
    exact ih (mem_dictKeys_dictSet_of_mem kv.1 kv.2 h)

theorem mem_dictKeys_dictUpdate_right {α β : Type} [DecidableEq α]
    {other : List (α × β)} {k : α} (d : List (α × β))
    (h : k ∈ dictKeys other) : k ∈ dictKeys (dictUpdate d other) := by
  induction other generalizing d with
  | nil => simp [dictKeys] at h
  | cons kv rest ih =>
    show k ∈ dictKeys (dictUpdate (dictSet d kv.1 kv.2) rest)
    simp only [dictKeys, List.map_cons, List.mem_cons] at h
    rcases h with h | h
    · exact mem_dictKeys_dictUpdate_left rest
        (h ▸ mem_dictKeys_dictSet_self d kv.1 kv.2)
    · exact ih (dictSet d kv.1 kv.2) h

theorem dictGet_dictUpdate_of_not_mem {α β : Type} [DecidableEq α]
    {other : List (α × β)} {k : α} (d : List (α × β))
    (h : k ∉ dictKeys other) : dictGet (dictUpdate d other) k = dictGet d k := by
  induction other generalizing d with
  | nil => rfl
  | cons kv rest ih =>
    simp only [dictKeys, List.map_cons, List.mem_cons, not_or] at h
    show dictGet (dictUpdate (dictSet d kv.1 kv.2) rest) k = dictGet d k
    rw [ih (dictSet d kv.1 kv.2) (by simpa [dictKeys] using h.2)]
    exact dictGet_dictSet_ne d kv.1 k kv.2 h.1

theorem dictGet_dictUpdate_of_mem {α β : Type} [DecidableEq α]
    {other : List (α × β)} {k : α} (d : List (α × β))
    (h : k ∈ dictKeys other) (hnd : (dictKeys other).Nodup) :
    dictGet (dictUpdate d other) k = dictGet other k := by
  induction other generalizing d with
  | nil => simp [dictKeys] at h
  | cons kv rest ih =>
    simp only [dictKeys, List.map_cons, List.nodup_cons] at hnd
    show dictGet (dictUpdate (dictSet d kv.1 kv.2) rest) k
        = dictGet (kv :: rest) k
    by_cases hk : kv.1 = k
    · subst hk
      rw [dictGet_dictUpdate_of_not_mem (dictSet d kv.1 kv.2)
          (by simpa [dictKeys] using hnd.1)]
      simp [dictGet, dictGet_dictSet_self]
    · have hkr : k ∈ dictKeys rest := by
        simp only [dictKeys, List.map_cons, List.mem_cons] at h
        rcases h with h | h
        · exact absurd h.symm hk
        · exact h
      rw [ih (dictSet d kv.1 kv.2) hkr hnd.2]
      simp [dictGet, hk]

/-! ### Lemmas about the runtime-option merge loop -/

theorem merge_lookup_of_not_declared (k : String)
    (cs : List StackComponent) :
    ∀ (opts : List (String × Value)) (warnings : List (List String)),
    (∀ c ∈ cs, k ∉ dictKeys c.runtime_options) →
    dictGet (mergeRuntimeOptions opts warnings cs).1 k = dictGet opts k := by
  induction cs with
  | nil => intro opts warnings _; rfl
  | cons c cs ih =>
    intro opts warnings h
    simp only [mergeRuntimeOptions]
    rw [ih _ _ (fun c' hc' => h c' (by simp [hc']))]
    exact dictGet_dictUpdate_of_not_mem opts (h c (by simp))

theorem merge_warnings_extend (w : List String)
    (cs : List StackComponent) :
    ∀ (opts : List (String × Value)) (warnings : List (List String)),
    w ∈ warnings → w ∈ (mergeRuntimeOptions opts warnings cs).2 := by
  induction cs with
  | nil => intro opts warnings h; exact h
  | cons c cs ih =>
    intro opts warnings h
    simp only [mergeRuntimeOptions]
    apply ih
    by_cases hd : ((dictKeys opts).filter
        (fun x => x ∈ dictKeys c.runtime_options)).isEmpty
    · simpa [hd] using h
    · simp [hd, h]

theorem merge_value_and_warning (k : String) (cj : StackComponent)
    (mid post : List StackComponent)
    (hcj : k ∈ dictKeys cj.runtime_options)
    (hnd : (dictKeys cj.runtime_options).Nodup)
    (hpost : ∀ c ∈ post, k ∉ dictKeys c.runtime_options) :
    ∀ (opts : List (String × Value)) (warnings : List (List String)),
    k ∈ dictKeys opts →
    dictGet (mergeRuntimeOptions opts warnings (mid ++ cj :: post)).1 k
        = dictGet cj.runtime_options k ∧
    ∃ w, k ∈ w ∧
      w ∈ (mergeRuntimeOptions opts warnings (mid ++ cj :: post)).2 := by
  induction mid with
  | nil =>
    intro opts warnings hk
    simp only [List.nil_append, mergeRuntimeOptions]
    have hdup : k ∈ (dictKeys opts).filter
        (fun x => x ∈ dictKeys cj.runtime_options) :=
      List.mem_filter.mpr ⟨hk, by simpa using hcj⟩
    have hne : (dictKeys opts).filter
        (fun x => x ∈ dictKeys cj.runtime_options) ≠ [] :=
      List.ne_nil_of_mem hdup
    have hdne : ((dictKeys opts).filter
        (fun x => x ∈ dictKeys cj.runtime_options)).isEmpty = false := by
      cases hl : (dictKeys opts).filter
          (fun x => x ∈ dictKeys cj.runtime_options) with
      | nil => exact absurd hl hne
      | cons a l => rfl
    rw [hdne]
    constructor
    · rw [merge_lookup_of_not_declared k post _ _ hpost]
      exact dictGet_dictUpdate_of_mem opts hcj hnd
    · refine ⟨(dictKeys opts).filter
        (fun x => x ∈ dictKeys cj.runtime_options), hdup, ?_⟩
      apply merge_warnings_extend
      simp
  | cons c mid ih =>
    intro opts warnings hk
    simp only [List.cons_append, mergeRuntimeOptions]
    exact ih _ _ (mem_dictKeys_dictUpdate_left c.runtime_options hk)

theorem merge_collision (k : String) (ci cj : StackComponent)
    (pre mid post : List StackComponent)
    (hci : k ∈ dictKeys ci.runtime_options)
    (hcj : k ∈ dictKeys cj.runtime_options)
    (hnd : (dictKeys cj.runtime_options).Nodup)
    (hpost : ∀ c ∈ post, k ∉ dictKeys c.runtime_options) :
    ∀ (opts : List (String × Value)) (warnings : List (List String)),
    dictGet (mergeRuntimeOptions opts warnings
        (pre ++ ci :: (mid ++ cj :: post))).1 k
      = dictGet cj.runtime_options k ∧
    ∃ w, k ∈ w ∧
      w ∈ (mergeRuntimeOptions opts warnings
        (pre ++ ci :: (mid ++ cj :: post))).2 := by
  induction pre with
  | nil =>
    intro opts warnings
    simp only [List.nil_append, mergeRuntimeOptions]
    exact merge_value_and_warning k cj mid post hcj hnd hpost _ _
      (mem_dictKeys_dictUpdate_right opts hci)
  | cons c pre ih =>
    intro opts warnings
    simp only [List.cons_append, mergeRuntimeOptions]
    exact ih _ _

/-- C6: `runtime_options` merges each present component's options in the
fixed category order; when a later component redeclares a key an earlier
component contributed, the later component's value is the one in the
result and a warning naming the colliding key is logged.  The merge is a
total function of the stack (the source has no failure path). -/
theorem runtime_options_collision (s : Stack) (k : String)
    (pre mid post : List StackComponent) (ci cj : StackComponent)
    (hcs : s.components.map Prod.snd = pre ++ ci :: (mid ++ cj :: post))
    (hci : k ∈ dictKeys ci.runtime_options)
    (hcj : k ∈ dictKeys cj.runtime_options)
    (hnd : (dictKeys cj.runtime_options).Nodup)
    (hpost : ∀ c ∈ post, k ∉ dictKeys c.runtime_options) :
    dictGet s.runtime_options k = dictGet cj.runtime_options k ∧
    ∃ w, k ∈ w ∧ w ∈ s.runtime_options_with_warnings.2 := by
  unfold Stack.runtime_options Stack.runtime_options_with_warnings
  rw [hcs]
  exact merge_collision k ci cj pre mid post hci hcj hnd hpost [] []

/-- Witness for C6: on the sample stack, `"shared_opt"` is declared by the
orchestrator (value 1) and redeclared by the artifact store (value 2); the
merged mapping holds 2 and a warning names the key. -/
theorem runtime_options_collision_witness :
    (dictGet sampleStack.runtime_options "shared_opt"
        = dictGet sampleArt.runtime_options "shared_opt" ∧
      ∃ w, "shared_opt" ∈ w ∧
        w ∈ sampleStack.runtime_options_with_warnings.2) ∧
    dictGet sampleStack.runtime_options "shared_opt" = some (.vInt 2) :=
  ⟨runtime_options_collision sampleStack "shared_opt" [] [sampleMeta]
      [sampleReg] sampleOrch sampleArt rfl (by decide) (by decide)
      (by decide)
      (fun c hc => by
        have : c = sampleReg := by simpa using hc
        rw [this]; decide),
    by rfl⟩

/-! ### Claims about `Stack` construction -/

/-- C7: for any well-typed component quadruple carrying no validators,
construction succeeds, and `components` holds exactly the non-absent
components keyed by their category — four entries with a container
registry, three without. -/
theorem stack_construction_success (name : String)
    (orch md art : StackComponent) (reg : Option StackComponent)
    (hw : Stack.WellTyped ⟨name, orch, md, art, reg⟩)
    (ho : orch.validator = none) (hm : md.validator = none)
    (ha : art.validator = none) (hr : ∀ r ∈ reg, r.validator = none) :
    mkStack name orch md art reg = .ok ⟨name, orch, md, art, reg⟩ ∧
    (⟨name, orch, md, art, reg⟩ : Stack).components =
      ([((.orchestrator : StackComponentType), orch),
          (.metadata_store, md), (.artifact_store, art)] ++
        (reg.map (fun r => ((.container_registry : StackComponentType), r))).toList) ∧
    (⟨name, orch, md, art, reg⟩ : Stack).components.length =
      if reg.isSome then 4 else 3 := by
  have h1 : orch.type = .orchestrator := hw.1
  have h2 : md.type = .metadata_store := hw.2.1
  have h3 : art.type = .artifact_store := hw.2.2.1
  have h4 : ∀ r ∈ reg, r.type = .container_registry := hw.2.2.2
  cases reg with
  | none =>
    have hcomp : (⟨name, orch, md, art, none⟩ : Stack).components =
        [(.orchestrator, orch), (.metadata_store, md),
          (.artifact_store, art)] := by
      simp [Stack.components, Stack.componentList, dictSet, h1, h2, h3]
    have hval : (⟨name, orch, md, art, none⟩ : Stack).validate = .ok () := by
      unfold Stack.validate
      apply validateComponents_ok_of_no_validators
      rw [hcomp]
      intro c hc
      simp only [List.map_cons, List.map_nil, List.mem_cons,
        List.not_mem_nil, or_false] at hc
      rcases hc with h | h | h
      · rw [h]; exact ho
      · rw [h]; exact hm
      · rw [h]; exact ha
    refine ⟨by simp [mkStack, hval], by rw [hcomp]; rfl, by rw [hcomp]; rfl⟩
  | some r =>
    have hrt : r.type = .container_registry := h4 r rfl
    have hvr : r.validator = none := hr r rfl
    have hcomp : (⟨name, orch, md, art, some r⟩ : Stack).components =
        [(.orchestrator, orch), (.metadata_store, md),
          (.artifact_store, art), (.container_registry, r)] := by
      simp [Stack.components, Stack.componentList, dictSet, h1, h2, h3, hrt]
    have hval : (⟨name, orch, md, art, some r⟩ : Stack).validate = .ok () := by
      unfold Stack.validate
      apply validateComponents_ok_of_no_validators
      rw [hcomp]
      intro c hc
      simp only [List.map_cons, List.map_nil, List.mem_cons,
        List.not_mem_nil, or_false] at hc
      rcases hc with h | h | h | h
      · rw [h]; exact ho
      · rw [h]; exact hm
      · rw [h]; exact ha
      · rw [h]; exact hvr
    refine ⟨by simp [mkStack, hval], by rw [hcomp]; rfl, by rw [hcomp]; rfl⟩

/-- Witness for C7 at the sample stack's components (registry present). -/
theorem stack_construction_success_witness :
    mkStack "sample" sampleOrch sampleMeta sampleArt (some sampleReg)
        = .ok ⟨"sample", sampleOrch, sampleMeta, sampleArt, some sampleReg⟩ ∧
    sampleStack.components =
      ([((.orchestrator : StackComponentType), sampleOrch),
          (.metadata_store, sampleMeta), (.artifact_store, sampleArt)] ++
        ((some sampleReg).map
          (fun r => ((.container_registry : StackComponentType), r))).toList) ∧
    sampleStack.components.length = if (some sampleReg).isSome then 4 else 3 :=
  stack_construction_success "sample" sampleOrch sampleMeta sampleArt
    (some sampleReg) sampleStack_wellTyped rfl rfl rfl
    (fun r hr => by
      have : sampleReg = r := by simpa [Option.mem_def] using hr
      rw [← this]; rfl)

/-- C4: construction is the single point where validation is enforced: if
any present component carries a validator that rejects the assembled
stack, `__init__` raises a `StackValidationError` and no `Stack` is
produced; conversely any `Stack` the constructor returns has passed
`validate()`. -/
theorem stack_validation_enforced_at_construction (name : String)
    (orch md art : StackComponent) (reg : Option StackComponent) :
    ((∃ c ∈ (⟨name, orch, md, art, reg⟩ : Stack).components.map Prod.snd,
        ∃ v, c.validator = some v ∧
          v (⟨name, orch, md, art, reg⟩ : Stack).toData = false) →
      ∃ e, mkStack name orch md art reg = .error e) ∧
    (∀ s', mkStack name orch md art reg = .ok s' → s'.validate = .ok ()) := by
  constructor
  · rintro ⟨c, hmem, v, hv, hfail⟩
    have hne : (⟨name, orch, md, art, reg⟩ : Stack).validate ≠ .ok () :=
      validateComponents_reject_ne_ok _ _ c v hmem hv hfail
    cases hval : (⟨name, orch, md, art, reg⟩ : Stack).validate with
    | ok u => cases u; exact absurd hval hne
    | error e => exact ⟨e, by simp [mkStack, hval]⟩
  · intro s' hs'
    cases hval : (⟨name, orch, md, art, reg⟩ : Stack).validate with
    | ok u =>
      cases u
      have hmk : mkStack name orch md art reg
          = .ok ⟨name, orch, md, art, reg⟩ := by simp [mkStack, hval]
      rw [hmk] at hs'
      cases hs'
      exact hval
    | error e =>
      have hmk : mkStack name orch md art reg = .error e := by
        simp [mkStack, hval]
      rw [hmk] at hs'
      cases hs'

/-- Witness for C4: a stack containing an always-rejecting validator fails
construction. -/
theorem stack_validation_enforced_at_construction_witness :
    (∃ e, mkStack "bad" rejectingOrch sampleMeta sampleArt none = .error e) ∧
    (∀ s', mkStack "bad" rejectingOrch sampleMeta sampleArt none = .ok s' →
      s'.validate = .ok ()) :=
  ⟨(stack_validation_enforced_at_construction "bad" rejectingOrch sampleMeta
        sampleArt none).1
      ⟨rejectingOrch,
        by
          show rejectingOrch ∈ [rejectingOrch, sampleMeta, sampleArt]
          exact List.mem_cons_self ..,
        fun _ => false, rfl, rfl⟩,
    (stack_validation_enforced_at_construction "bad" rejectingOrch sampleMeta
        sampleArt none).2⟩

/-! ### Claim about `requirements` -/

theorem foldl_requirements_eq (ex : List StackComponentType)
    (cs : List StackComponent) (acc : List String) :
    (cs.map (fun c => (c.type, c))).foldl
        (fun acc tc =>
          if tc.1 ∈ ex then acc else acc ++ tc.2.requirements) acc
      = acc ++ ((cs.filter (fun c => c.type ∉ ex)).map
          (fun c => c.requirements)).flatten := by
  induction cs generalizing acc with
  | nil => simp
  | cons c cs ih =>
    by_cases hc : c.type ∈ ex
    · simp [hc, ih]
    · simp [hc, ih, List.append_assoc]

/-- C5: `requirements(exclude_components)` is the concatenation, in the
fixed component-iteration order, of the requirement lists of exactly those
present components whose category is not excluded; duplicates across
components are preserved. -/
theorem requirements_concatenation (s : Stack)
    (ex : List StackComponentType) (hw : s.WellTyped) :
    s.requirements ex =
      ((s.componentList.filter (fun c => c.type ∉ ex)).map
        (fun c => c.requirements)).flatten := by
  unfold Stack.requirements
  rw [Stack.components_of_wellTyped s hw, foldl_requirements_eq]
  simp

/-- Witness for C5: exclude the artifact-store category on the sample
stack; the result is the concatenation of the other components'
requirement lists, with the duplicate `"o-req"` preserved. -/
theorem requirements_concatenation_witness :
    sampleStack.requirements [.artifact_store] =
      ((sampleStack.componentList.filter
          (fun c => c.type ∉ ([.artifact_store] : List StackComponentType))).map
        (fun c => c.requirements)).flatten ∧
    sampleStack.requirements [.artifact_store]
      = ["o-req", "m-req", "o-req", "r-req"] :=
  ⟨requirements_concatenation sampleStack [.artifact_store]
      sampleStack_wellTyped,
    by rfl⟩

/-! ### Claims about the `deploy_pipeline` lifecycle -/

theorem runHooks_append_error (hook : StackComponent → Except String Unit)
    (ev : StackComponent → Event) (pre post : List StackComponent)
    (c : StackComponent) (e : String)
    (hpre : ∀ c' ∈ pre, hook c' = .ok ()) (hc : hook c = .error e) :
    runHooks hook ev (pre ++ c :: post)
      = (pre.map ev ++ [ev c], .error e) := by
  induction pre with
  | nil => simp [runHooks, hc]
  | cons c' pre ih =>
    have h1 : hook c' = .ok () := hpre c' (by simp)
    simp only [List.cons_append, runHooks, h1, List.append_eq]
    rw [ih (fun x hx => hpre x (by simp [hx]))]
    simp

/-- C2: if a component's `prepare_pipeline_deployment` raises, the run
aborts at once: the trace is exactly the prepare-deployment invocations up
to and including the failing component, so the orchestrator's
`run_pipeline` is never invoked, components later in the fixed order are
not prepared, no cleanup is interleaved, and the error propagates to the
caller. -/
theorem deploy_aborts_on_prepare_failure (s : Stack) (pipeline : Pipeline)
    (rc : RuntimeConfiguration) (now : Timestamp)
    (pre post : List StackComponent) (c : StackComponent) (e : String)
    (hcs : s.components.map Prod.snd = pre ++ c :: post)
    (hpre : ∀ c' ∈ pre,
      c'.prepare_pipeline_deployment pipeline s.toData rc = .ok ())
    (hc : c.prepare_pipeline_deployment pipeline s.toData rc = .error e) :
    s.deploy_pipeline pipeline rc now
      = (pre.map (fun c' => .prepareDeployment c'.name)
          ++ [.prepareDeployment c.name], .error e) ∧
    (∀ v, Event.runPipeline v ∉ (s.deploy_pipeline pipeline rc now).1) ∧
    (∀ nm, Event.prepareRun nm ∉ (s.deploy_pipeline pipeline rc now).1) ∧
    (∀ nm, Event.cleanup nm ∉ (s.deploy_pipeline pipeline rc now).1) := by
  have hrun := runHooks_append_error
    (fun c' => c'.prepare_pipeline_deployment pipeline s.toData rc)
    (fun c' => .prepareDeployment c'.name) pre post c e hpre hc
  have htrace : s.deploy_pipeline pipeline rc now
      = (pre.map (fun c' => .prepareDeployment c'.name)
          ++ [.prepareDeployment c.name], .error e) := by
    simp only [Stack.deploy_pipeline]
    rw [hcs, hrun]
  refine ⟨htrace, ?_, ?_, ?_⟩ <;> intro x <;> rw [htrace] <;> simp

/-- Witness for C2: on `prepFailStack` the run stops inside the first
loop — only the orchestrator and the failing metadata store are touched. -/
theorem deploy_aborts_on_prepare_failure_witness :
    prepFailStack.deploy_pipeline ⟨"pipe"⟩ emptyRC someNow
      = ([sampleOrch].map (fun c' => .prepareDeployment c'.name)
          ++ [.prepareDeployment failingPrepMeta.name], .error "prep-failed") ∧
    (∀ v, Event.runPipeline v
      ∉ (prepFailStack.deploy_pipeline ⟨"pipe"⟩ emptyRC someNow).1) ∧
    (∀ nm, Event.prepareRun nm
      ∉ (prepFailStack.deploy_pipeline ⟨"pipe"⟩ emptyRC someNow).1) ∧
    (∀ nm, Event.cleanup nm
      ∉ (prepFailStack.deploy_pipeline ⟨"pipe"⟩ emptyRC someNow).1) :=
  deploy_aborts_on_prepare_failure prepFailStack ⟨"pipe"⟩ emptyRC someNow
    [sampleOrch] [sampleArt] failingPrepMeta "prep-failed" rfl
    (fun c' hc' => by
      have : c' = sampleOrch := by simpa using hc'
      rw [this]; rfl)
    rfl

/-- C1 (evaluation at the failing input): when the orchestrator's
`run_pipeline` raises, `deploy_pipeline` as written propagates the error
WITHOUT invoking any component's `cleanup_pipeline_run`: the cleanup loop
sits after the `run_pipeline` call on the normal path, with no
`try`/`finally` around the call (the method's tail at stack.py lines
253-257 even ends in an unmatched parenthesis).  This contradicts the
claim that cleanup still runs on every present component when execution
raises. -/
theorem cleanup_skipped_on_execution_error :
    (crashStack.deploy_pipeline ⟨"pipe"⟩ namedRC someNow).2
        = .error "boom" ∧
    (∀ nm, Event.cleanup nm
      ∉ (crashStack.deploy_pipeline ⟨"pipe"⟩ namedRC someNow).1) ∧
    (crashStack.deploy_pipeline ⟨"pipe"⟩ namedRC someNow).1
      = [.prepareDeployment "orchestrator",
          .prepareDeployment "metadata_store",
          .prepareDeployment "artifact_store",
          .prepareRun "orchestrator", .prepareRun "metadata_store",
          .prepareRun "artifact_store", .runPipeline (.vStr "run")] := by
  have htrace : (crashStack.deploy_pipeline ⟨"pipe"⟩ namedRC someNow).1
      = [.prepareDeployment "orchestrator",
          .prepareDeployment "metadata_store",
          .prepareDeployment "artifact_store",
          .prepareRun "orchestrator", .prepareRun "metadata_store",
          .prepareRun "artifact_store", .runPipeline (.vStr "run")] := rfl
  refine ⟨rfl, ?_, htrace⟩
  intro nm
  rw [htrace]
  simp

/-! ### Injectivity of the run-name timestamp format -/

theorem ofDigits_replicate_zero (b k : Nat) :
    Nat.ofDigits b (List.replicate k 0) = 0 := by
  induction k with
  | zero => rfl
  | succ k ih => simp [List.replicate_succ, Nat.ofDigits_cons, ih]

theorem paddedDigits_lt (w n : Nat) : ∀ d ∈ paddedDigits w n, d < 10 := by
  intro d hd
  rcases List.mem_append.mp hd with hd | hd
  · exact Nat.digits_lt_base (by norm_num) hd
  · rw [List.eq_of_mem_replicate hd]; norm_num

theorem ofDigits_paddedDigits (w n : Nat) :
    Nat.ofDigits 10 (paddedDigits w n) = n := by
  unfold paddedDigits
  rw [Nat.ofDigits_append, Nat.ofDigits_digits, ofDigits_replicate_zero]
  ring

theorem digitChar_toNat_sub : ∀ d, d < 10 → (Nat.digitChar d).toNat - 48 = d := by
  decide

theorem decode_fieldChars (w n : Nat) : decodeField (fieldChars w n) = n := by
  unfold decodeField fieldChars
  rw [List.map_map, List.map_reverse, List.reverse_reverse]
  have hcongr : (paddedDigits w n).map
      ((fun ch => ch.toNat - 48) ∘ Nat.digitChar) = paddedDigits w n := by
    have h1 : (paddedDigits w n).map
        ((fun ch => ch.toNat - 48) ∘ Nat.digitChar)
        = (paddedDigits w n).map id :=
      List.map_congr_left (fun d hd => by
        simpa using digitChar_toNat_sub d (paddedDigits_lt w n d hd))
    rw [h1, List.map_id]
  rw [hcongr, ofDigits_paddedDigits]

theorem fieldChars_injective {w a b : Nat}
    (h : fieldChars w a = fieldChars w b) : a = b := by
  rw [← decode_fieldChars w a, ← decode_fieldChars w b, h]

theorem digits_len_le_of_lt_pow {n w : Nat} (h : n < 10 ^ w) :
    (Nat.digits 10 n).length ≤ w := by
  rcases Nat.eq_zero_or_pos n with hn | hn
  · subst hn; simp
  · have hne : n ≠ 0 := Nat.pos_iff_ne_zero.mp hn
    rw [Nat.digits_len 10 n (by norm_num) hne]
    have hlog : Nat.log 10 n < w := by
      by_contra hc
      push_neg at hc
      have h1 : (10 : ℕ) ^ w ≤ 10 ^ Nat.log 10 n :=
        Nat.pow_le_pow_right (by norm_num) hc
      have h2 : (10 : ℕ) ^ Nat.log 10 n ≤ n := Nat.pow_log_le_self 10 hne
      omega
    omega

theorem fieldChars_length {w n : Nat} (h : n < 10 ^ w) :
    (fieldChars w n).length = w := by
  have hlen : (Nat.digits 10 n).length ≤ w := digits_len_le_of_lt_pow h
  unfold fieldChars paddedDigits
  simp
  omega

theorem monthAbbrev_data_length :
    ∀ m, m < 13 → 1 ≤ m → (monthAbbrev m).data.length = 3 := by decide

theorem monthAbbrev_injective :
    ∀ m, m < 13 → ∀ m', m' < 13 → 1 ≤ m → 1 ≤ m' →
      monthAbbrev m = monthAbbrev m' → m = m' := by decide

theorem string_eq_of_data_eq {s1 s2 : String} (h : s1.data = s2.data) :
    s1 = s2 := by
  cases s1; cases s2; exact congrArg String.mk h

theorem fieldChars_length_two {n : Nat} (h : n < 100) :
    (fieldChars 2 n).length = 2 :=
  fieldChars_length (lt_of_lt_of_le h (by norm_num))

theorem fieldChars_length_six {n : Nat} (h : n < 1000000) :
    (fieldChars 6 n).length = 6 :=
  fieldChars_length (lt_of_lt_of_le h (by norm_num))

theorem strftime_injective (t t' : Timestamp) (ht : t.Valid) (ht' : t'.Valid)
    (h : t.strftime = t'.strftime) : t = t' := by
  rcases t with ⟨d, mo, y, hh, mi, se, us⟩
  rcases t' with ⟨d', mo', y', hh', mi', se', us'⟩
  have hd2 : d ≤ 31 := ht.2.1
  have hm1 : 1 ≤ mo := ht.2.2.1
  have hm2 : mo ≤ 12 := ht.2.2.2.1
  have hy : y < 100 := ht.2.2.2.2.1
  have hhh : hh < 24 := ht.2.2.2.2.2.1
  have hmi : mi < 60 := ht.2.2.2.2.2.2.1
  have hse : se < 60 := ht.2.2.2.2.2.2.2.1
  have hus : us < 1000000 := ht.2.2.2.2.2.2.2.2
  have hd2' : d' ≤ 31 := ht'.2.1
  have hm1' : 1 ≤ mo' := ht'.2.2.1
  have hm2' : mo' ≤ 12 := ht'.2.2.2.1
  have hy' : y' < 100 := ht'.2.2.2.2.1
  have hhh' : hh' < 24 := ht'.2.2.2.2.2.1
  have hmi' : mi' < 60 := ht'.2.2.2.2.2.2.1
  have hse' : se' < 60 := ht'.2.2.2.2.2.2.2.1
  have hus' : us' < 1000000 := ht'.2.2.2.2.2.2.2.2
  simp only [Timestamp.strftime] at h
  injection h with hdata
  have e1 := List.append_inj' hdata (by
    rw [fieldChars_length_six hus, fieldChars_length_six hus'])
  have e2 := List.append_inj' e1.1 rfl
  have e3 := List.append_inj' e2.1 (by
    rw [fieldChars_length_two (by omega), fieldChars_length_two (by omega :
      se' < 100)])
  have e4 := List.append_inj' e3.1 rfl
  have e5 := List.append_inj' e4.1 (by
    rw [fieldChars_length_two (by omega), fieldChars_length_two (by omega :
      mi' < 100)])
  have e6 := List.append_inj' e5.1 rfl
  have e7 := List.append_inj' e6.1 (by
    rw [fieldChars_length_two (by omega), fieldChars_length_two (by omega :
      hh' < 100)])
  have e8 := List.append_inj' e7.1 rfl
  have e9 := List.append_inj' e8.1 (by
    rw [fieldChars_length_two (by omega), fieldChars_length_two (by omega :
      y' < 100)])
  have e10 := List.append_inj' e9.1 rfl
  have e11 := List.append_inj' e10.1 (by
    rw [monthAbbrev_data_length mo (by omega) (by omega),
      monthAbbrev_data_length mo' (by omega) (by omega)])
  have e12 := List.append_inj' e11.1 rfl
  have hdd : d = d' := fieldChars_injective e12.1
  have hmo : mo = mo' := monthAbbrev_injective mo (by omega) mo' (by omega)
    (by omega) (by omega) (string_eq_of_data_eq e11.2)
  have hyy : y = y' := fieldChars_injective e9.2
  have hhheq : hh = hh' := fieldChars_injective e7.2
  have hmieq : mi = mi' := fieldChars_injective e5.2
  have hseeq : se = se' := fieldChars_injective e3.2
  have huseq : us = us' := fieldChars_injective e1.2
  subst hdd hmo hyy hhheq hmieq hseeq huseq
  rfl

theorem synth_run_name_injective (pn : String) (t t' : Timestamp)
    (ht : t.Valid) (ht' : t'.Valid) (hne : t ≠ t') :
    pn ++ "-" ++ t.strftime ≠ pn ++ "-" ++ t'.strftime := by
  intro h
  apply hne
  apply strftime_injective t t' ht ht'
  apply string_eq_of_data_eq
  have hd := congrArg String.data h
  simp only [String.data_append, List.append_assoc] at hd
  exact List.append_cancel_left (List.append_cancel_left hd)

theorem runHooks_events (hook : StackComponent → Except String Unit)
    (ev : StackComponent → Event) (cs : List StackComponent) :
    ∀ x ∈ (runHooks hook ev cs).1, ∃ c, x = ev c := by
  induction cs with
  | nil => intro x hx; simp [runHooks] at hx
  | cons c cs ih =>
    intro x hx
    cases hc : hook c with
    | error e =>
      simp only [runHooks, hc] at hx
      simp only [List.mem_singleton] at hx
      exact ⟨c, hx⟩
    | ok u =>
      cases u
      simp only [runHooks, hc] at hx
      rcases List.mem_cons.mp hx with hx | hx
      · exact ⟨c, hx⟩
      · exact ih x hx

/-- C3: the run name is the reserved runtime-configuration value when that
value is present and a non-empty string; otherwise `deploy_pipeline`
synthesizes `"<pipeline-name>-<timestamp>"` (microsecond-resolution
format), and synthesized names for the same pipeline at distinct instants
differ; whenever the orchestrator is invoked, the name it receives is the
resolved one. -/
theorem run_name_resolution (rc : RuntimeConfiguration) (s_ : Stack)
    (pipeline : Pipeline) (t t' : Timestamp) (nm : String) :
    (rc.run_name = some (.vStr nm) → nm ≠ "" →
      resolveRunName rc pipeline.name t = .ok (.vStr nm)) ∧
    ((rc.run_name = some .vNone ∨ rc.run_name = some (.vStr "")) →
      resolveRunName rc pipeline.name t
        = .ok (.vStr (pipeline.name ++ "-" ++ t.strftime))) ∧
    (t.Valid → t'.Valid → t ≠ t' →
      pipeline.name ++ "-" ++ t.strftime
        ≠ pipeline.name ++ "-" ++ t'.strftime) ∧
    (∀ v, Event.runPipeline v ∈ (s_.deploy_pipeline pipeline rc t).1 →
      resolveRunName rc pipeline.name t = .ok v) := by
  refine ⟨?_, ?_, ?_, ?_⟩
  · intro hrn hne
    have hb : (nm != "") = true := by
      simpa using hne
    simp [resolveRunName, hrn, Value.truthy, hb]
  · intro hrn
    rcases hrn with hrn | hrn <;> simp [resolveRunName, hrn, Value.truthy]
  · intro ht ht' hne
    exact synth_run_name_injective pipeline.name t t' ht ht' hne
  · intro v hv
    simp only [Stack.deploy_pipeline] at hv
    split at hv
    · dsimp only at hv
      exact absurd (runHooks_events _ _ _ _ hv) (by rintro ⟨c, hc⟩; cases hc)
    · split at hv
      · dsimp only at hv
        rcases List.mem_append.mp hv with hv | hv
        · exact absurd (runHooks_events _ _ _ _ hv)
            (by rintro ⟨c, hc⟩; cases hc)
        · exact absurd (runHooks_events _ _ _ _ hv)
            (by rintro ⟨c, hc⟩; cases hc)
      · split at hv
        case _ e heq =>
          dsimp only at hv
          rcases List.mem_append.mp hv with hv | hv
          · exact absurd (runHooks_events _ _ _ _ hv)
              (by rintro ⟨c, hc⟩; cases hc)
          · exact absurd (runHooks_events _ _ _ _ hv)
              (by rintro ⟨c, hc⟩; cases hc)
        case _ run_name heq =>
          split at hv
          · dsimp only at hv
            rcases List.mem_append.mp hv with hv | hv
            · rcases List.mem_append.mp hv with hv | hv
              · exact absurd (runHooks_events _ _ _ _ hv)
                  (by rintro ⟨c, hc⟩; cases hc)
              · exact absurd (runHooks_events _ _ _ _ hv)
                  (by rintro ⟨c, hc⟩; cases hc)
            · rw [List.mem_singleton] at hv
              injection hv with hv
              subst hv
              exact heq
          · dsimp only at hv
            rcases List.mem_append.mp hv with hv | hv
            · rcases List.mem_append.mp hv with hv | hv
              · rcases List.mem_append.mp hv with hv | hv
                · exact absurd (runHooks_events _ _ _ _ hv)
                    (by rintro ⟨c, hc⟩; cases hc)
                · exact absurd (runHooks_events _ _ _ _ hv)
                    (by rintro ⟨c, hc⟩; cases hc)
              · rw [List.mem_singleton] at hv
                injection hv with hv
                subst hv
                exact heq
            · exact absurd (runHooks_events _ _ _ _ hv)
                (by rintro ⟨c, hc⟩; cases hc)

/-- Witness for C3: an explicit non-empty run name is passed through; an
absent one yields the synthesized pipeline-name/timestamp name; two
distinct instants give distinct synthesized names; the orchestrator of the
failing concrete run received exactly the resolved name. -/
theorem run_name_resolution_witness :
    resolveRunName namedRC "pipe" someNow = .ok (.vStr "run") ∧
    resolveRunName emptyRC "pipe" someNow
      = .ok (.vStr ("pipe" ++ "-" ++ someNow.strftime)) ∧
    ("pipe" ++ "-" ++ someNow.strftime ≠ "pipe" ++ "-" ++ otherNow.strftime) ∧
    resolveRunName namedRC "pipe" someNow = .ok (.vStr "run") :=
  ⟨(run_name_resolution namedRC crashStack ⟨"pipe"⟩ someNow otherNow "run").1
      rfl (by decide),
    (run_name_resolution emptyRC crashStack ⟨"pipe"⟩ someNow otherNow "run").2.1
      (Or.inl rfl),
    (run_name_resolution emptyRC crashStack ⟨"pipe"⟩ someNow otherNow
        "run").2.2.1 (by decide) (by decide) (by decide),
    (run_name_resolution namedRC crashStack ⟨"pipe"⟩ someNow otherNow
        "run").2.2.2 (.vStr "run") (by decide)⟩

end ZenML
